import Mathlib

/-!
Verification development for the constant-folding routines in
src/lib/SILOptimizer/Utils/ConstantFolding.cpp.

A machine integer of bit width w is embedded as its raw two's-complement
bit pattern: a natural number strictly below 2 ^ w.  Signed readings go
through toSigned.  The APInt operations that the source calls are
embedded from their LLVM implementations (wrapping arithmetic plus the
sign-comparison / division-check overflow tests); the folding routines
themselves are translated line by line from ConstantFolding.cpp.
Diagnostic emission is modelled as a list of diagnostic identifiers
returned next to the optional replacement value and the updated
ResultsInError flag.
-/

namespace ConstantFolding

/-- Signed (two's-complement) reading of a w-bit pattern. -/
def toSigned (w v : Nat) : Int :=
  if v < 2 ^ (w - 1) then (v : Int) else (v : Int) - 2 ^ w

/-- APInt.isNonNegative: the sign bit is clear. -/
def isNonNegative (w v : Nat) : Bool :=
  decide (v < 2 ^ (w - 1))

/-- APInt.isNegative: the sign bit is set. -/
def isNegative (w v : Nat) : Bool :=
  ! isNonNegative w v

/-- The w-bit pattern of an integer: reduction modulo 2 ^ w into [0, 2 ^ w). -/
def toPattern (w : Nat) (z : Int) : Nat :=
  (z % (2 ^ w : Int)).toNat

namespace APInt

/-- Wrapping addition (APInt operator +). -/
def add (w x y : Nat) : Nat := (x + y) % 2 ^ w

/-- Wrapping subtraction (APInt operator -). -/
def sub (w x y : Nat) : Nat := (x + (2 ^ w - y)) % 2 ^ w

/-- Wrapping multiplication (APInt operator *). -/
def mul (w x y : Nat) : Nat := (x * y) % 2 ^ w

/-- APInt::trunc to width d: keep the low d bits. -/
def trunc (d v : Nat) : Nat := v % 2 ^ d

/-- APInt::zext: the value is unchanged, new high bits are zero. -/
def zext (v : Nat) : Nat := v

/-- APInt::sext from width srcW to width dstW: replicate the sign bit. -/
def sext (srcW dstW v : Nat) : Nat :=
  if v < 2 ^ (srcW - 1) then v else v + (2 ^ dstW - 2 ^ srcW)

/-- APInt::udiv: unsigned division of the patterns. -/
def udiv (x y : Nat) : Nat := x / y

/-- APInt::urem: unsigned remainder of the patterns. -/
def urem (x y : Nat) : Nat := x % y

/-- APInt::sdiv: signed division truncating toward zero, wrapped to w bits. -/
def sdiv (w x y : Nat) : Nat :=
  toPattern w (Int.tdiv (toSigned w x) (toSigned w y))

/-- APInt::srem: signed remainder (sign follows the dividend), wrapped to w bits. -/
def srem (w x y : Nat) : Nat :=
  toPattern w (Int.tmod (toSigned w x) (toSigned w y))

/-- APInt::uadd_ov: overflow iff the wrapped sum is below an operand. -/
def uadd_ov (w x y : Nat) : Nat × Bool :=
  let r := add w x y
  (r, decide (r < y))

/-- APInt::sadd_ov: overflow iff the operands have equal signs and the
wrapped sum has the opposite sign. -/
def sadd_ov (w x y : Nat) : Nat × Bool :=
  let r := add w x y
  (r, (isNonNegative w x == isNonNegative w y) &&
      (isNonNegative w r != isNonNegative w x))

/-- APInt::usub_ov: overflow iff the wrapped difference exceeds the minuend. -/
def usub_ov (w x y : Nat) : Nat × Bool :=
  let r := sub w x y
  (r, decide (x < r))

/-- APInt::ssub_ov: overflow iff the operands have distinct signs and the
wrapped difference has a sign other than the minuend. -/
def ssub_ov (w x y : Nat) : Nat × Bool :=
  let r := sub w x y
  (r, (isNonNegative w x != isNonNegative w y) &&
      (isNonNegative w r != isNonNegative w x))

/-- APInt::umul_ov: for nonzero operands, overflow iff dividing the wrapped
product back does not recover both operands. -/
def umul_ov (w x y : Nat) : Nat × Bool :=
  let r := mul w x y
  (r, if x ≠ 0 ∧ y ≠ 0 then decide (r / y ≠ x) || decide (r / x ≠ y) else false)

/-- Modelled from the spec: the overflow flag of the signed checked multiply
(APInt::smul_ov is LLVM library code outside this repository); per the spec,
the flag is set iff the mathematical product does not fit in the signed
range of width w.  The wrapped product is the w-bit pattern of the product,
as for the other checked operations. -/
def smul_ov (w x y : Nat) : Nat × Bool :=
  let r := mul w x y
  (r, decide (¬ (-(2 ^ (w - 1) : Int) ≤ toSigned w x * toSigned w y ∧
                 toSigned w x * toSigned w y < 2 ^ (w - 1))))

/-- APInt::sdiv_ov: overflow iff dividing the minimum signed value by -1. -/
def sdiv_ov (w x y : Nat) : Nat × Bool :=
  (sdiv w x y, decide (x = 2 ^ (w - 1)) && decide (y = 2 ^ w - 1))

/-- Arithmetic shift right: shift in copies of the sign bit. -/
def ashr (w x c : Nat) : Nat :=
  toPattern w (toSigned w x / (2 ^ c : Int))

/-- Logical shift right. -/
def lshr (x c : Nat) : Nat := x >>> c

/-- Shift left, wrapped to w bits. -/
def shl (w x c : Nat) : Nat := (x <<< c) % 2 ^ w

end APInt

/-- The builtin kinds dispatched by the folding routines. -/
inductive BuiltinValueKind where
  | Add | Sub | Mul
  | SDiv | SRem | UDiv | URem | ExactSDiv | ExactUDiv
  | And | Or | Xor | Shl | LShr | AShr
  | FAdd | FSub | FMul | FDiv | FRem
  | ICMP_EQ | ICMP_NE | ICMP_SLT | ICMP_SGT | ICMP_SLE | ICMP_SGE
  | ICMP_ULT | ICMP_UGT | ICMP_ULE | ICMP_UGE
  | SAddOver | UAddOver | SSubOver | USubOver | SMulOver | UMulOver
  | Trunc | ZExt | SExt | TruncOrBitCast | ZExtOrBitCast | SExtOrBitCast
  | SToSCheckedTrunc | UToUCheckedTrunc | SToUCheckedTrunc | UToSCheckedTrunc
  | SUCheckedConversion | USCheckedConversion
  | FPTrunc | IntToFPWithOverflow | FPToSI | FPToUI
  | AssumeNonNegative | AssertConf | CondUnreachable
  deriving DecidableEq, Repr

/-- The llvm.*.with.overflow intrinsic identifiers. -/
inductive IntrinsicID where
  | sadd_with_overflow | uadd_with_overflow
  | ssub_with_overflow | usub_with_overflow
  | smul_with_overflow | umul_with_overflow
  deriving DecidableEq, Repr

/-- swift::constantFoldBitOperation (lines 30-46). -/
def constantFoldBitOperation (w lhs rhs : Nat) (ID : BuiltinValueKind) : Nat :=
  match ID with
  | .And => lhs &&& rhs
  | .AShr => APInt.ashr w lhs rhs
  | .LShr => APInt.lshr lhs rhs
  | .Or => lhs ||| rhs
  | .Shl => APInt.shl w lhs rhs
  | .Xor => lhs ^^^ rhs
  | _ => 0

/-- swift::constantFoldComparison (lines 48-64); the result is the 1-bit
pattern of the comparison outcome. -/
def constantFoldComparison (w lhs rhs : Nat) (ID : BuiltinValueKind) : Nat :=
  let result : Bool :=
    match ID with
    | .ICMP_EQ => lhs == rhs
    | .ICMP_NE => lhs != rhs
    | .ICMP_SLT => decide (toSigned w lhs < toSigned w rhs)
    | .ICMP_SGT => decide (toSigned w rhs < toSigned w lhs)
    | .ICMP_SLE => decide (toSigned w lhs ≤ toSigned w rhs)
    | .ICMP_SGE => decide (toSigned w rhs ≤ toSigned w lhs)
    | .ICMP_ULT => decide (lhs < rhs)
    | .ICMP_UGT => decide (rhs < lhs)
    | .ICMP_ULE => decide (lhs ≤ rhs)
    | .ICMP_UGE => decide (rhs ≤ lhs)
    | _ => false
  if result then 1 else 0

/-- swift::constantFoldBinaryWithOverflow (lines 66-84): dispatch to the
checked APInt intrinsic, returning the wrapped result and overflow flag. -/
def constantFoldBinaryWithOverflow (w lhs rhs : Nat) (ID : IntrinsicID) : Nat × Bool :=
  match ID with
  | .sadd_with_overflow => APInt.sadd_ov w lhs rhs
  | .uadd_with_overflow => APInt.uadd_ov w lhs rhs
  | .ssub_with_overflow => APInt.ssub_ov w lhs rhs
  | .usub_with_overflow => APInt.usub_ov w lhs rhs
  | .smul_with_overflow => APInt.smul_ov w lhs rhs
  | .umul_with_overflow => APInt.umul_ov w lhs rhs

/-- swift::constantFoldDiv (lines 86-106); precondition rhs is not zero.
Returns the result pattern and the overflow flag. -/
def constantFoldDiv (w lhs rhs : Nat) (ID : BuiltinValueKind) : Nat × Bool :=
  match ID with
  | .SDiv => APInt.sdiv_ov w lhs rhs
  | .SRem =>
    let dv := APInt.sdiv_ov w lhs rhs
    (APInt.srem w lhs rhs, dv.2)
  | .UDiv => (APInt.udiv lhs rhs, false)
  | .URem => (APInt.urem lhs rhs, false)
  | _ => (0, false)

/-- swift::constantFoldCast (lines 108-133): srcW and dstW are the greatest
widths of the two builtin integer type arguments. -/
def constantFoldCast (srcW dstW v : Nat) (ID : BuiltinValueKind) : Nat :=
  if srcW = dstW then v
  else
    match ID with
    | .Trunc | .TruncOrBitCast => APInt.trunc dstW v
    | .ZExt | .ZExtOrBitCast => APInt.zext v
    | .SExt | .SExtOrBitCast => APInt.sext srcW dstW v
    | _ => 0

/-- A SIL value as the folding routines inspect it.  Integer literal
instructions carry a width and a pattern; builtin instructions carry their
kind and operand list (used by the pattern folder); everything else the
routines only test with dyn_cast, so it is kept abstract. -/
inductive MVal where
  | ilit (w v : Nat)
  | builtin (ID : BuiltinValueKind) (args : List MVal)
  | tupleExtract (agg : MVal) (field : Nat)
  | unknown (id : Nat)

/-- The diagnostic identifiers emitted by the folding routines. -/
inductive Diag where
  | arithmetic_operation_overflow
  | arithmetic_operation_overflow_generic_type
  | division_by_zero
  | division_overflow
  | shifting_all_significant_bits
  | integer_literal_overflow
  | negative_integer_literal_overflow_unsigned
  | integer_literal_overflow_builtin_types
  | integer_conversion_overflow
  | integer_conversion_overflow_builtin_types
  | integer_conversion_sign_error
  | integer_literal_overflow_warn
  | integer_conversion_overflow_warn
  | warning_float_trunc_overflow
  | warning_float_trunc_underflow
  | warning_float_trunc_hex_inexact
  | wrong_non_negative_assumption
  deriving DecidableEq, Repr

/-- dyn_cast to IntegerLiteralInst succeeds. -/
def isIntLit : MVal → Bool
  | .ilit _ _ => true
  | _ => false

/-- PatternMatch m_Zero: an integer literal with value 0. -/
def isZeroLit : MVal → Bool
  | .ilit _ v => v == 0
  | _ => false

/-- PatternMatch m_One: an integer literal with value 1. -/
def isOneLit : MVal → Bool
  | .ilit _ v => v == 1
  | _ => false

/-- An integer literal whose value is APInt::isMaxSignedValue. -/
def isMaxSignedLit : MVal → Bool
  | .ilit w v => v == 2 ^ (w - 1) - 1
  | _ => false

/-- m_BuiltinInst(AssumeNonNegative, m_ValueBase()). -/
def isAssumeNonNegativeOf : MVal → Bool
  | .builtin .AssumeNonNegative [_] => true
  | _ => false

/-- m_BuiltinInst(LShr, m_ValueBase(), m_IntegerLiteralInst(c)) with c
strictly positive (sign bit clear and nonzero). -/
def isLShrByPositive : MVal → Bool
  | .builtin .LShr [_, .ilit w c] => isNonNegative w c && decide (c ≠ 0)
  | _ => false

/-- m_TupleExtractInst(m_BuiltinInst(U{Add,Sub,Mul}Over with report flag
literal 1), 0): the value part of a checked unsigned operation. -/
def isCheckedUnsignedValuePart : MVal → Bool
  | .tupleExtract (.builtin k args) 0 =>
    (match k with
     | .UAddOver | .USubOver | .UMulOver => true
     | _ => false) &&
    (match args with
     | [_, _, f] => isOneLit f
     | _ => false)
  | _ => false

/-- constructResultWithOverflowTuple (lines 148-165): the replacement tuple
of the result literal of width w and the 1-bit overflow literal. -/
def constructResultWithOverflowTuple (_w res : Nat) (overflow : Bool) : Nat × Nat :=
  (res, if overflow then 1 else 0)

/-- The static constantFoldBinaryWithOverflow overload at lines 168-268.
The AST-dependent context enters as three booleans: whether the enclosing
function is a compiler-generated specialization, and whether the source
expression yields a usable operand type (the OpType.isNull test that picks
between the two diagnostic variants).  Returns the optional replacement
tuple, the updated ResultsInError flag, and the emitted diagnostics. -/
def constantFoldBinaryWithOverflowInst (ID : IntrinsicID) (reportOverflow : Bool)
    (arg0 arg1 : MVal) (rie : Option Bool)
    (isSpecialization opTypeRecoverable : Bool) :
    Option (Nat × Nat) × Option Bool × List Diag :=
  match arg0, arg1 with
  | .ilit w lhs, .ilit _ rhs =>
    let rc := constantFoldBinaryWithOverflow w lhs rhs ID
    if rie.isSome ∧ rc.2 = true ∧ reportOverflow = true then
      if isSpecialization then (none, rie, [])
      else
        (some (constructResultWithOverflowTuple w rc.1 rc.2), some true,
         [if opTypeRecoverable then .arithmetic_operation_overflow
          else .arithmetic_operation_overflow_generic_type])
    else (some (constructResultWithOverflowTuple w rc.1 rc.2), rie, [])
  | _, _ => (none, rie, [])

/-- getLLVMIntrinsicIDForBuiltinWithOverflow: the canonical mapping from
the overflow builtin kinds to the LLVM intrinsic identifiers. -/
def getLLVMIntrinsicIDForBuiltinWithOverflow : BuiltinValueKind → IntrinsicID
  | .SAddOver => .sadd_with_overflow
  | .UAddOver => .uadd_with_overflow
  | .SSubOver => .ssub_with_overflow
  | .USubOver => .usub_with_overflow
  | .SMulOver => .smul_with_overflow
  | _ => .umul_with_overflow

/-- The static constantFoldBinaryWithOverflow overload at lines 270-279:
reads the report-overflow flag from the third operand (a literal 1). -/
def constantFoldBinaryWithOverflowBuiltin (ID : BuiltinValueKind) (args : List MVal)
    (rie : Option Bool) (isSpecialization opTypeRecoverable : Bool) :
    Option (Nat × Nat) × Option Bool × List Diag :=
  match args with
  | [a0, a1, a2] =>
    constantFoldBinaryWithOverflowInst (getLLVMIntrinsicIDForBuiltinWithOverflow ID)
      (isOneLit a2) a0 a1 rie isSpecialization opTypeRecoverable
  | _ => (none, rie, [])

/-- constantFoldAndCheckDivision (lines 505-567).  The replacement is a
literal (width, value). -/
def constantFoldAndCheckDivision (ID : BuiltinValueKind) (arg0 arg1 : MVal)
    (rie : Option Bool) :
    Option (Nat × Nat) × Option Bool × List Diag :=
  match arg1 with
  | .ilit w denomVal =>
    if denomVal = 0 then
      if rie.isNone then (none, rie, [])
      else (none, some true, [.division_by_zero])
    else
      match arg0 with
      | .ilit _ numVal =>
        let rc := constantFoldDiv w numVal denomVal ID
        if rc.2 = true then
          if rie.isNone then (none, rie, [])
          else (none, some true, [.division_overflow])
        else (some (w, rc.1), rie, [])
      | _ => (none, rie, [])
  | _ => (none, rie, [])

/-- constantFoldBinary (lines 573-668).  Float-literal operands are outside
this integer-valued embedding, so the four float arithmetic kinds behave as
they do in the source when the operands are not float literals: no fold. -/
def constantFoldBinary (ID : BuiltinValueKind) (arg0 arg1 : MVal)
    (rie : Option Bool) :
    Option (Nat × Nat) × Option Bool × List Diag :=
  match ID with
  | .ExactSDiv | .ExactUDiv => (none, rie, [])
  | .FRem => (none, rie, [])
  | .SDiv | .SRem | .UDiv | .URem => constantFoldAndCheckDivision ID arg0 arg1 rie
  | .Add | .Mul | .Sub => (none, rie, [])
  | .And | .AShr | .LShr | .Or | .Shl | .Xor =>
    match arg0, arg1 with
    | .ilit w lhs, .ilit _ rhs =>
      if (ID = .AShr ∨ ID = .LShr ∨ ID = .Shl) ∧ w ≤ rhs then
        (none, some true, [.shifting_all_significant_bits])
      else
        (some (w, constantFoldBitOperation w lhs rhs ID), rie, [])
    | _, _ => (none, rie, [])
  | .FAdd | .FDiv | .FMul | .FSub => (none, rie, [])
  | _ => (none, rie, [])

/-- constantFoldCompare (lines 334-503): the literal fold followed by the
pattern catalogue, in source order.  The function contains no diagnose
call, so its diagnostic list is empty on every path. -/
def constantFoldCompare (ID : BuiltinValueKind) (lhs rhs : MVal) :
    Option (Nat × Nat) × List Diag :=
  match lhs, rhs with
  | .ilit w a, .ilit _ b => (some (1, constantFoldComparison w a b ID), [])
  | _, _ =>
    if (ID = .ICMP_ULT ∧ isZeroLit rhs = true) ∨
       (ID = .ICMP_UGT ∧ isZeroLit lhs = true) ∨
       (ID = .ICMP_SLT ∧ isAssumeNonNegativeOf lhs = true ∧ isZeroLit rhs = true) ∨
       (ID = .ICMP_SGT ∧ isZeroLit lhs = true ∧ isAssumeNonNegativeOf rhs = true) then
      (some (1, 0), [])
    else if (ID = .ICMP_UGE ∧ isZeroLit rhs = true) ∨
       (ID = .ICMP_ULE ∧ isZeroLit lhs = true) ∨
       (ID = .ICMP_SGE ∧ isAssumeNonNegativeOf lhs = true ∧ isZeroLit rhs = true) ∨
       (ID = .ICMP_SLE ∧ isZeroLit lhs = true ∧ isAssumeNonNegativeOf rhs = true) then
      (some (1, 1), [])
    else if (ID = .ICMP_SLT ∧ isMaxSignedLit lhs = true) ∨
       (ID = .ICMP_SGT ∧ isMaxSignedLit rhs = true) then
      (some (1, 0), [])
    else if (ID = .ICMP_SGE ∧ isMaxSignedLit lhs = true) ∨
       (ID = .ICMP_SLE ∧ isMaxSignedLit rhs = true) then
      (some (1, 1), [])
    else if ((ID = .ICMP_UGE ∨ ID = .ICMP_SGE) ∧ isMaxSignedLit lhs = true ∧
             isLShrByPositive rhs = true) ∨
       ((ID = .ICMP_ULE ∨ ID = .ICMP_SLE) ∧ isMaxSignedLit rhs = true ∧
             isLShrByPositive lhs = true) then
      (some (1, 1), [])
    else if ((ID = .ICMP_ULT ∨ ID = .ICMP_SLT) ∧ isMaxSignedLit lhs = true ∧
             isLShrByPositive rhs = true) ∨
       ((ID = .ICMP_UGT ∨ ID = .ICMP_SGT) ∧ isMaxSignedLit rhs = true ∧
             isLShrByPositive lhs = true) then
      (some (1, 0), [])
    else if ID = .ICMP_SLT ∧ isCheckedUnsignedValuePart lhs = true ∧
             isZeroLit rhs = true then
      (some (1, 0), [])
    else if ID = .ICMP_SGE ∧ isCheckedUnsignedValuePart lhs = true ∧
             isZeroLit rhs = true then
      (some (1, 1), [])
    else (none, [])

/-- getTypeSignedness (lines 670-682): source and destination signedness of
a checked conversion builtin. -/
def getTypeSignedness (ID : BuiltinValueKind) : Bool × Bool :=
  (decide (ID = .SToSCheckedTrunc ∨ ID = .SToUCheckedTrunc ∨
           ID = .SUCheckedConversion),
   decide (ID = .SToSCheckedTrunc ∨ ID = .UToSCheckedTrunc ∨
           ID = .USCheckedConversion))

/-- The pure computation at lines 713-751 of
constantFoldAndCheckIntegerConversions: the result pattern and the
overflow flag, for a source literal of width s and destination width d. -/
def convCompute (ID : BuiltinValueKind) (s d srcVal : Nat) : Nat × Bool :=
  if ID = .SUCheckedConversion ∨ ID = .USCheckedConversion then
    (srcVal, isNegative s srcVal)
  else if ID ≠ .UToSCheckedTrunc then
    let result := APInt.trunc d srcVal
    let ext := if ID = .SToSCheckedTrunc then APInt.sext d s result
               else APInt.zext result
    (result, decide (srcVal ≠ ext))
  else
    let result := APInt.trunc d srcVal
    let truncVal := APInt.trunc (d - 1) srcVal
    (result, decide (srcVal ≠ APInt.zext truncVal))

/-- constantFoldAndCheckIntegerConversions (lines 684-862).  The
AST-dependent context enters as two booleans: whether the source location
is valid, and whether the user-visible types could be recovered from the
call expression (UserSrcTy and UserDstTy are set together at lines
768-778). -/
def constantFoldAndCheckIntegerConversions (ID : BuiltinValueKind) (s d : Nat)
    (arg : MVal) (locValid userTyAvail : Bool) (rie : Option Bool) :
    Option (Nat × Nat) × Option Bool × List Diag :=
  match arg with
  | .ilit _ srcVal =>
    let rc := convCompute ID s d srcVal
    if rc.2 = true then
      if rie.isNone then (none, rie, [])
      else
        let literal := s = 2048
        if locValid = false then
          (none, some true,
           [if literal then .integer_literal_overflow_warn
            else .integer_conversion_overflow_warn])
        else if literal then
          if userTyAvail then
            (none, some true,
             [if (getTypeSignedness ID).1 && !(getTypeSignedness ID).2 &&
                 isNegative s srcVal then
                .negative_integer_literal_overflow_unsigned
              else .integer_literal_overflow])
          else (none, some true, [.integer_literal_overflow_builtin_types])
        else
          if ID = .SUCheckedConversion then
            (none, some true, [.integer_conversion_sign_error])
          else if userTyAvail then
            (none, some true, [.integer_conversion_overflow])
          else (none, some true, [.integer_conversion_overflow_builtin_types])
    else
      (some (rc.1, 0), rie, [])
  | _ => (none, rie, [])

/-- The AST facts that maybeExplicitFPCons (lines 1089-1109) reads off the
call expression at the instruction location. -/
structure CallInfo where
  calleeIsCtorRef : Bool
  isImplicit : Bool
  typeIsCanonicalDouble : Bool

/-- maybeExplicitFPCons (lines 1089-1109): loc is the location resolved as
a call expression, when that succeeds. -/
def maybeExplicitFPCons (loc : Option CallInfo) : Bool :=
  match loc with
  | none => true
  | some c =>
    if !c.calleeIsCtorRef then true
    else if !c.isImplicit then true
    else c.typeIsCanonicalDouble

/-- The IEEE operation status flags of an APFloat conversion. -/
structure FPOpStatus where
  invalidOp : Bool
  divByZero : Bool
  underflow : Bool
  overflow : Bool
  inexact : Bool

/-- Status opOK: no flag raised. -/
def FPOpStatus.isOK (st : FPOpStatus) : Bool :=
  !(st.invalidOp || st.divByZero || st.underflow || st.overflow || st.inexact)

/-- The data foldFPTrunc computes about its float-literal operand: the
status of the APFloat::convert call, whether the converted value is
denormal, the isLossyUnderflow analysis, and whether the literal was
written in hex-float syntax.  APFloat is LLVM library code outside this
repository, so the conversion itself enters the embedding as this record. -/
structure FPTruncEval where
  status : FPOpStatus
  resultIsDenormal : Bool
  lossyUnderflow : Bool
  hexLiteral : Bool

/-- foldFPTrunc (lines 1111-1172).  The first component tells whether a
replacement float literal is produced. -/
def foldFPTrunc (arg : Option FPTruncEval) (loc : Option CallInfo)
    (rie : Option Bool) : Bool × Option Bool × List Diag :=
  match arg with
  | none => (false, rie, [])
  | some ev =>
    let warned :=
      if rie.isSome && !maybeExplicitFPCons loc then
        let ovf := ev.status.overflow
        let tiny := ev.lossyUnderflow
        let hexn := !ev.status.isOK && ev.hexLiteral
        if ovf || tiny || hexn then
          ((some true : Option Bool),
           [if ovf then Diag.warning_float_trunc_overflow
            else if hexn then Diag.warning_float_trunc_hex_inexact
            else Diag.warning_float_trunc_underflow])
        else (rie, [])
      else (rie, [])
    if ev.status.invalidOp || ev.status.divByZero || ev.status.underflow ||
       ev.resultIsDenormal then
      (false, warned.1, warned.2)
    else (true, warned.1, warned.2)

/-! ## Specification-side definitions

These state, in the spec's own vocabulary, what the claims assert about
the embedded source functions; the theorems below compare the two. -/

/-- z lies in the signed range of width w. -/
def fitsSigned (w : Nat) (z : Int) : Prop :=
  -(2 ^ (w - 1) : Int) ≤ z ∧ z < 2 ^ (w - 1)

instance (w : Nat) (z : Int) : Decidable (fitsSigned w z) :=
  inferInstanceAs (Decidable (And _ _))

/-- The mathematical (unwrapped) result of a checked intrinsic, reading the
operands with the declared signedness. -/
def mathResult (ID : IntrinsicID) (w x y : Nat) : Int :=
  match ID with
  | .sadd_with_overflow => toSigned w x + toSigned w y
  | .uadd_with_overflow => (x : Int) + y
  | .ssub_with_overflow => toSigned w x - toSigned w y
  | .usub_with_overflow => (x : Int) - y
  | .smul_with_overflow => toSigned w x * toSigned w y
  | .umul_with_overflow => (x : Int) * y

/-- z fits in width w under the signedness declared by the intrinsic. -/
def fitsWidth (ID : IntrinsicID) (w : Nat) (z : Int) : Prop :=
  match ID with
  | .sadd_with_overflow | .ssub_with_overflow | .smul_with_overflow =>
    fitsSigned w z
  | _ => 0 ≤ z ∧ z < 2 ^ w

instance (ID : IntrinsicID) (w : Nat) (z : Int) : Decidable (fitsWidth ID w z) :=
  match ID with
  | .sadd_with_overflow => inferInstanceAs (Decidable (fitsSigned w z))
  | .uadd_with_overflow => inferInstanceAs (Decidable (And _ _))
  | .ssub_with_overflow => inferInstanceAs (Decidable (fitsSigned w z))
  | .usub_with_overflow => inferInstanceAs (Decidable (And _ _))
  | .smul_with_overflow => inferInstanceAs (Decidable (fitsSigned w z))
  | .umul_with_overflow => inferInstanceAs (Decidable (And _ _))

/-- The mathematical quotient or remainder a division builtin stands for. -/
def divMathResult (ID : BuiltinValueKind) (w numVal denomVal : Nat) : Int :=
  match ID with
  | .SDiv => Int.tdiv (toSigned w numVal) (toSigned w denomVal)
  | .SRem => Int.tmod (toSigned w numVal) (toSigned w denomVal)
  | .UDiv => ((numVal / denomVal : Nat) : Int)
  | .URem => ((numVal % denomVal : Nat) : Int)
  | _ => 0

/-- The signed quotient does not fit in the operand width; the unsigned
divisions never overflow. -/
def divOverflows (ID : BuiltinValueKind) (w numVal denomVal : Nat) : Prop :=
  (ID = .SDiv ∨ ID = .SRem) ∧
  ¬ fitsSigned w (Int.tdiv (toSigned w numVal) (toSigned w denomVal))

instance (ID : BuiltinValueKind) (w numVal denomVal : Nat) :
    Decidable (divOverflows ID w numVal denomVal) :=
  inferInstanceAs (Decidable (And _ _))

/-- Claim C1's stated rule for the checked-truncation overflow flag:
truncate to the destination width, apply the inverse extension chosen by
the SOURCE signedness (sext when the source is signed, zext otherwise),
and compare with the input. -/
def specConvOverflow (ID : BuiltinValueKind) (s d v : Nat) : Bool :=
  let t := APInt.trunc d v
  let ext := if ID = .SToSCheckedTrunc ∨ ID = .SToUCheckedTrunc
             then APInt.sext d s t else APInt.zext t
  decide (v ≠ ext)

/-- The input read with the source signedness. -/
def srcRead (ID : BuiltinValueKind) (s v : Nat) : Int :=
  if ID = .SToSCheckedTrunc ∨ ID = .SToUCheckedTrunc then toSigned s v
  else (v : Int)

/-- The input value, read with the source signedness, is representable in
the destination width with the destination signedness. -/
def checkedTruncFits (ID : BuiltinValueKind) (s d v : Nat) : Prop :=
  ((ID = .SToSCheckedTrunc ∨ ID = .UToSCheckedTrunc) ∧
     fitsSigned d (srcRead ID s v)) ∨
  (¬ (ID = .SToSCheckedTrunc ∨ ID = .UToSCheckedTrunc) ∧
     0 ≤ srcRead ID s v ∧ srcRead ID s v < 2 ^ d)

/-- Claim C8's stated condition: the location resolves to a call expression
whose callee is a constructor reference not marked implicit, or the
constructed type is the canonical Double. -/
def specMaybeExplicit (loc : Option CallInfo) : Prop :=
  (∃ c, loc = some c ∧ c.calleeIsCtorRef = true ∧ c.isImplicit = false) ∨
  (∃ c, loc = some c ∧ c.typeIsCanonicalDouble = true)

/-! ## Theorems -/

theorem two_pow_pos (n : Nat) : 0 < 2 ^ n :=
  pow_pos (by norm_num) n

theorem pow_split (w : Nat) (hw : 1 ≤ w) : 2 ^ w = 2 ^ (w - 1) * 2 := by
  conv_lhs => rw [show w = (w - 1) + 1 from by omega]
  rw [pow_succ]

theorem addWrap_eq (w x y : Nat) (hx : x < 2 ^ w) (hy : y < 2 ^ w) :
    (x + y) % 2 ^ w = if x + y < 2 ^ w then x + y else x + y - 2 ^ w := by
  split
  next h => exact Nat.mod_eq_of_lt h
  next h =>
    rw [Nat.mod_eq_sub_mod (by omega)]
    exact Nat.mod_eq_of_lt (by omega)

theorem subWrap_eq (w x y : Nat) (hx : x < 2 ^ w) (hy : y < 2 ^ w) :
    (x + (2 ^ w - y)) % 2 ^ w = if y ≤ x then x - y else x + (2 ^ w - y) := by
  split
  next h =>
    rw [Nat.mod_eq_sub_mod (by omega)]
    have he : x + (2 ^ w - y) - 2 ^ w = x - y := by omega
    rw [he]
    exact Nat.mod_eq_of_lt (by omega)
  next h => exact Nat.mod_eq_of_lt (by omega)

theorem wrap_cast (w a : Nat) :
    ((a % 2 ^ w : Nat) : Int) = (a : Int) % (2 ^ w : Int) := by
  push_cast
  rfl

theorem natCast_mod_two_pow_modEq (w a : Nat) :
    ((a % 2 ^ w : Nat) : Int) ≡ (a : Int) [ZMOD (2 ^ w : Int)] := by
  rw [wrap_cast]
  exact Int.emod_emod_of_dvd _ dvd_rfl

theorem add_pow_modEq (n a : Int) : a + n ≡ a [ZMOD n] :=
  Int.ModEq.symm (Int.modEq_iff_dvd.2 ⟨1, by ring⟩)

theorem toSigned_modEq (w v : Nat) :
    toSigned w v ≡ (v : Int) [ZMOD (2 ^ w : Int)] := by
  unfold toSigned
  split
  · rfl
  · have : ((v : Int) - 2 ^ w) + 2 ^ w = (v : Int) := by ring
    calc (v : Int) - 2 ^ w
        ≡ ((v : Int) - 2 ^ w) + 2 ^ w [ZMOD (2 ^ w : Int)] :=
          (add_pow_modEq _ _).symm
      _ = (v : Int) := this

theorem uadd_ov_flag (w x y : Nat) (hx : x < 2 ^ w) (hy : y < 2 ^ w) :
    (APInt.uadd_ov w x y).2 = true ↔ 2 ^ w ≤ x + y := by
  simp only [APInt.uadd_ov, APInt.add, decide_eq_true_eq]
  rw [addWrap_eq w x y hx hy]
  split <;> omega

theorem usub_ov_flag (w x y : Nat) (hx : x < 2 ^ w) (hy : y < 2 ^ w) :
    (APInt.usub_ov w x y).2 = true ↔ x < y := by
  simp only [APInt.usub_ov, APInt.sub, decide_eq_true_eq]
  rw [subWrap_eq w x y hx hy]
  split <;> omega

theorem sadd_ov_flag (w x y : Nat) (hw : 1 ≤ w) (hx : x < 2 ^ w)
    (hy : y < 2 ^ w) :
    (APInt.sadd_ov w x y).2 = true ↔
      ¬ fitsSigned w (toSigned w x + toSigned w y) := by
  have hs := pow_split w hw
  have hb1 : ((2 ^ (w - 1) : Nat) : Int) = (2 : Int) ^ (w - 1) := by
    push_cast
    rfl
  have hb2 : ((2 ^ w : Nat) : Int) = (2 : Int) ^ w := by
    push_cast
    rfl
  simp only [APInt.sadd_ov, APInt.add, isNonNegative, fitsSigned, toSigned,
    Bool.and_eq_true, beq_iff_eq, bne_iff_ne, decide_eq_decide, ne_eq,
    decide_eq_true_eq]
  rw [addWrap_eq w x y hx hy]
  split_ifs <;> omega

theorem ssub_ov_flag (w x y : Nat) (hw : 1 ≤ w) (hx : x < 2 ^ w)
    (hy : y < 2 ^ w) :
    (APInt.ssub_ov w x y).2 = true ↔
      ¬ fitsSigned w (toSigned w x - toSigned w y) := by
  have hs := pow_split w hw
  have hb1 : ((2 ^ (w - 1) : Nat) : Int) = (2 : Int) ^ (w - 1) := by
    push_cast
    rfl
  have hb2 : ((2 ^ w : Nat) : Int) = (2 : Int) ^ w := by
    push_cast
    rfl
  simp only [APInt.ssub_ov, APInt.sub, isNonNegative, fitsSigned, toSigned,
    Bool.and_eq_true, beq_iff_eq, bne_iff_ne, decide_eq_decide, ne_eq,
    decide_eq_true_eq]
  rw [subWrap_eq w x y hx hy]
  split_ifs <;> omega

theorem umul_ov_flag (w x y : Nat) (hx : x < 2 ^ w) (hy : y < 2 ^ w) :
    (APInt.umul_ov w x y).2 = true ↔ 2 ^ w ≤ x * y := by
  have hpos := two_pow_pos w
  simp only [APInt.umul_ov, APInt.mul]
  by_cases hx0 : x = 0
  · subst hx0
    rw [if_neg (by simp)]
    rw [Nat.zero_mul]
    constructor
    · intro h
      exact absurd h (by decide)
    · intro h
      exact absurd h (by omega)
  · by_cases hy0 : y = 0
    · subst hy0
      rw [if_neg (by simp)]
      rw [Nat.mul_zero]
      constructor
      · intro h
        exact absurd h (by decide)
      · intro h
        exact absurd h (by omega)
    · rw [if_pos ⟨hx0, hy0⟩]
      simp only [Bool.or_eq_true, decide_eq_true_eq]
      constructor
      · intro h
        by_contra hlt
        push_neg at hlt
        rw [Nat.mod_eq_of_lt hlt] at h
        have h1 : x * y / y = x := Nat.mul_div_cancel x (Nat.pos_of_ne_zero hy0)
        have h2 : x * y / x = y := Nat.mul_div_cancel_left y (Nat.pos_of_ne_zero hx0)
        rcases h with h | h
        · exact h h1
        · exact h h2
      · intro h
        left
        have hr : x * y % 2 ^ w < x * y := lt_of_lt_of_le (Nat.mod_lt _ hpos) h
        have hq : x * y % 2 ^ w / y < x :=
          (Nat.div_lt_iff_lt_mul (Nat.pos_of_ne_zero hy0)).2 hr
        omega

theorem wrapAdd_modEq (w x y : Nat) :
    (((x + y) % 2 ^ w : Nat) : Int) ≡ (x : Int) + y [ZMOD (2 ^ w : Int)] := by
  have h1 := natCast_mod_two_pow_modEq w (x + y)
  rwa [Nat.cast_add] at h1

theorem wrapSub_modEq (w x y : Nat) (hy : y ≤ 2 ^ w) :
    (((x + (2 ^ w - y)) % 2 ^ w : Nat) : Int) ≡ (x : Int) - y
      [ZMOD (2 ^ w : Int)] := by
  have h1 := natCast_mod_two_pow_modEq w (x + (2 ^ w - y))
  have h2 : ((x + (2 ^ w - y) : Nat) : Int) = ((x : Int) - y) + (2 ^ w : Int) := by
    push_cast [hy]
    ring
  rw [h2] at h1
  exact h1.trans (add_pow_modEq _ _)

theorem wrapMul_modEq (w x y : Nat) :
    (((x * y) % 2 ^ w : Nat) : Int) ≡ (x : Int) * y [ZMOD (2 ^ w : Int)] := by
  have h1 := natCast_mod_two_pow_modEq w (x * y)
  rwa [Nat.cast_mul] at h1

theorem ite_flag_eq_one (b : Bool) (P : Prop) (h : b = true ↔ P) :
    ((if b then (1 : Nat) else 0) = 1 ↔ P) := by
  cases b <;> simp_all

/-- Claim C5: for all literal operands (x, y) of width w and each of the
six checked add/sub/mul intrinsics, the replacement tuple (r, o) built by
constructResultWithOverflowTuple from the constantFoldBinaryWithOverflow
kernel satisfies: r is congruent to the mathematical result modulo 2 ^ w,
and the overflow literal o equals 1 iff that result does not fit in width
w under the declared signedness. -/
theorem claim_C5 (ID : IntrinsicID) (w x y : Nat) (hw : 1 ≤ w)
    (hx : x < 2 ^ w) (hy : y < 2 ^ w) :
    (((constructResultWithOverflowTuple w
          (constantFoldBinaryWithOverflow w x y ID).1
          (constantFoldBinaryWithOverflow w x y ID).2).1 : Int)
        ≡ mathResult ID w x y [ZMOD (2 ^ w : Int)]) ∧
    ((constructResultWithOverflowTuple w
          (constantFoldBinaryWithOverflow w x y ID).1
          (constantFoldBinaryWithOverflow w x y ID).2).2 = 1 ↔
        ¬ fitsWidth ID w (mathResult ID w x y)) := by
  have hb2 : ((2 ^ w : Nat) : Int) = (2 : Int) ^ w := by
    push_cast
    rfl
  cases ID with
  | sadd_with_overflow =>
    constructor
    · show (((APInt.sadd_ov w x y).1 : Nat) : Int) ≡ _ [ZMOD _]
      have hr : (APInt.sadd_ov w x y).1 = (x + y) % 2 ^ w := rfl
      rw [hr]
      exact (wrapAdd_modEq w x y).trans
        (((toSigned_modEq w x).add (toSigned_modEq w y)).symm)
    · exact ite_flag_eq_one _ _ (sadd_ov_flag w x y hw hx hy)
  | uadd_with_overflow =>
    constructor
    · show (((APInt.uadd_ov w x y).1 : Nat) : Int) ≡ _ [ZMOD _]
      exact wrapAdd_modEq w x y
    · refine ite_flag_eq_one _ _ ((uadd_ov_flag w x y hx hy).trans ?_)
      show 2 ^ w ≤ x + y ↔ ¬ (0 ≤ (x : Int) + y ∧ (x : Int) + y < 2 ^ w)
      omega
  | ssub_with_overflow =>
    constructor
    · show (((APInt.ssub_ov w x y).1 : Nat) : Int) ≡ _ [ZMOD _]
      exact (wrapSub_modEq w x y hy.le).trans
        (((toSigned_modEq w x).sub (toSigned_modEq w y)).symm)
    · exact ite_flag_eq_one _ _ (ssub_ov_flag w x y hw hx hy)
  | usub_with_overflow =>
    constructor
    · show (((APInt.usub_ov w x y).1 : Nat) : Int) ≡ _ [ZMOD _]
      exact wrapSub_modEq w x y hy.le
    · refine ite_flag_eq_one _ _ ((usub_ov_flag w x y hx hy).trans ?_)
      show x < y ↔ ¬ (0 ≤ (x : Int) - y ∧ (x : Int) - y < 2 ^ w)
      omega
  | smul_with_overflow =>
    constructor
    · show (((APInt.smul_ov w x y).1 : Nat) : Int) ≡ _ [ZMOD _]
      exact (wrapMul_modEq w x y).trans
        (((toSigned_modEq w x).mul (toSigned_modEq w y)).symm)
    · refine ite_flag_eq_one _ _ ?_
      show decide (¬ fitsSigned w (toSigned w x * toSigned w y)) = true ↔
        ¬ fitsSigned w (toSigned w x * toSigned w y)
      exact decide_eq_true_iff
  | umul_with_overflow =>
    constructor
    · show (((APInt.umul_ov w x y).1 : Nat) : Int) ≡ _ [ZMOD _]
      exact wrapMul_modEq w x y
    · refine ite_flag_eq_one _ _ ((umul_ov_flag w x y hx hy).trans ?_)
      show 2 ^ w ≤ x * y ↔ ¬ (0 ≤ (x : Int) * y ∧ (x : Int) * y < 2 ^ w)
      constructor
      · intro h hc
        refine absurd hc.2 (not_lt.2 ?_)
        rw [← hb2, ← Nat.cast_mul]
        exact_mod_cast h
      · intro h
        by_contra hlt
        push_neg at hlt
        apply h
        refine ⟨by positivity, ?_⟩
        rw [← hb2, ← Nat.cast_mul]
        exact_mod_cast hlt

/-- Witness for claim C5: the 8-bit unsigned checked add of 200 and 100. -/
theorem claim_C5_witness :
    (((constructResultWithOverflowTuple 8
          (constantFoldBinaryWithOverflow 8 200 100 .uadd_with_overflow).1
          (constantFoldBinaryWithOverflow 8 200 100 .uadd_with_overflow).2).1 : Int)
        ≡ mathResult .uadd_with_overflow 8 200 100 [ZMOD (2 ^ 8 : Int)]) ∧
    ((constructResultWithOverflowTuple 8
          (constantFoldBinaryWithOverflow 8 200 100 .uadd_with_overflow).1
          (constantFoldBinaryWithOverflow 8 200 100 .uadd_with_overflow).2).2 = 1 ↔
        ¬ fitsWidth .uadd_with_overflow 8
            (mathResult .uadd_with_overflow 8 200 100)) :=
  claim_C5 .uadd_with_overflow 8 200 100 (by decide) (by decide) (by decide)

theorem natAbs_tdiv (a b : Int) : (a.tdiv b).natAbs = a.natAbs / b.natAbs := by
  cases a <;> cases b <;>
    simp only [Int.tdiv, Int.natAbs_neg] <;> rfl

theorem toSigned_bounds (w v : Nat) (hw : 1 ≤ w) (hv : v < 2 ^ w) :
    -((2 ^ (w - 1) : Nat) : Int) ≤ toSigned w v ∧
      toSigned w v < ((2 ^ (w - 1) : Nat) : Int) := by
  have hps := pow_split w hw
  have hb2 : ((2 ^ w : Nat) : Int) = (2 : Int) ^ w := by
    push_cast
    rfl
  unfold toSigned
  split <;> omega

theorem toSigned_ne_zero (w v : Nat) (hv : v < 2 ^ w) (h0 : v ≠ 0) :
    toSigned w v ≠ 0 := by
  have hb2 : ((2 ^ w : Nat) : Int) = (2 : Int) ^ w := by
    push_cast
    rfl
  unfold toSigned
  split <;> omega

theorem toSigned_eq_neg_min (w v : Nat) (hw : 1 ≤ w) (hv : v < 2 ^ w)
    (h : toSigned w v = -((2 ^ (w - 1) : Nat) : Int)) : v = 2 ^ (w - 1) := by
  have hps := pow_split w hw
  have hb2 : ((2 ^ w : Nat) : Int) = (2 : Int) ^ w := by
    push_cast
    rfl
  unfold toSigned at h
  split at h <;> omega

theorem toSigned_eq_neg_one (w v : Nat) (hw : 1 ≤ w) (_hv : v < 2 ^ w)
    (h : toSigned w v = -1) : v = 2 ^ w - 1 := by
  have hps := pow_split w hw
  have hA1 : 1 ≤ 2 ^ (w - 1) := two_pow_pos (w - 1)
  have hb2 : ((2 ^ w : Nat) : Int) = (2 : Int) ^ w := by
    push_cast
    rfl
  unfold toSigned at h
  split at h <;> omega

theorem toPattern_natCast (w a : Nat) (ha : a < 2 ^ w) :
    toPattern w (a : Int) = a := by
  have hb2 : ((2 ^ w : Nat) : Int) = (2 : Int) ^ w := by
    push_cast
    rfl
  unfold toPattern
  rw [Int.emod_eq_of_lt (by omega) (by omega)]
  omega

/-- The APInt::sdiv_ov trigger (minimum signed value divided by -1) is
exactly the condition that the mathematical signed quotient does not fit
in the operand width. -/
theorem sdivOverflow_iff (w numVal denomVal : Nat) (hw : 1 ≤ w)
    (hn : numVal < 2 ^ w) (hd : denomVal < 2 ^ w) (h0 : denomVal ≠ 0) :
    ((numVal = 2 ^ (w - 1) ∧ denomVal = 2 ^ w - 1) ↔
      ¬ fitsSigned w (Int.tdiv (toSigned w numVal) (toSigned w denomVal))) := by
  have hps := pow_split w hw
  have hA1 : 1 ≤ 2 ^ (w - 1) := two_pow_pos (w - 1)
  have hb1 : ((2 ^ (w - 1) : Nat) : Int) = (2 : Int) ^ (w - 1) := by
    push_cast
    rfl
  have hb2 : ((2 ^ w : Nat) : Int) = (2 : Int) ^ w := by
    push_cast
    rfl
  constructor
  · rintro ⟨h1, h2⟩
    subst h1
    subst h2
    have hX : toSigned w (2 ^ (w - 1)) = -((2 ^ (w - 1) : Nat) : Int) := by
      unfold toSigned
      rw [if_neg (lt_irrefl _)]
      omega
    have hY : toSigned w (2 ^ w - 1) = -1 := by
      unfold toSigned
      rw [if_neg (by omega)]
      omega
    rw [hX, hY]
    rw [show (-1 : Int) = -(1 : Int) from rfl, Int.tdiv_neg, Int.tdiv_one,
      neg_neg]
    simp only [fitsSigned, not_and, not_lt]
    intro hle
    omega
  · intro hnf
    have hXb := toSigned_bounds w numVal hw hn
    have hYb := toSigned_bounds w denomVal hw hd
    have hY0 : toSigned w denomVal ≠ 0 := toSigned_ne_zero w denomVal hd h0
    have hqa := natAbs_tdiv (toSigned w numVal) (toSigned w denomVal)
    have hXa : (toSigned w numVal).natAbs ≤ 2 ^ (w - 1) := by omega
    have hq_le :
        ((toSigned w numVal).tdiv (toSigned w denomVal)).natAbs ≤ 2 ^ (w - 1) := by
      rw [hqa]
      exact le_trans (Nat.div_le_self _ _) hXa
    simp only [fitsSigned, not_and, not_lt] at hnf
    have hq_eq : (toSigned w numVal).tdiv (toSigned w denomVal)
        = ((2 ^ (w - 1) : Nat) : Int) := by omega
    have hA_eq : (toSigned w numVal).natAbs / (toSigned w denomVal).natAbs
        = 2 ^ (w - 1) := by
      have hcg := congrArg Int.natAbs hq_eq
      rw [hqa] at hcg
      omega
    have hXA : (toSigned w numVal).natAbs = 2 ^ (w - 1) := by
      have hle := Nat.div_le_self (toSigned w numVal).natAbs
        (toSigned w denomVal).natAbs
      omega
    have hY1 : (toSigned w denomVal).natAbs = 1 := by
      by_contra hY1
      have hY2 : 2 ≤ (toSigned w denomVal).natAbs := by omega
      have hd2 : (toSigned w numVal).natAbs / (toSigned w denomVal).natAbs ≤
          (toSigned w numVal).natAbs / 2 :=
        Nat.div_le_div_left hY2 (by omega)
      have hd3 : (toSigned w numVal).natAbs / 2 < (toSigned w numVal).natAbs :=
        Nat.div_lt_self (by omega) (by omega)
      omega
    have hXneg : toSigned w numVal = -((2 ^ (w - 1) : Nat) : Int) := by omega
    have hYcases : toSigned w denomVal = 1 ∨ toSigned w denomVal = -1 := by omega
    rcases hYcases with hY | hY
    · exfalso
      rw [hXneg, hY, Int.tdiv_one] at hq_eq
      omega
    · exact ⟨toSigned_eq_neg_min w numVal hw hn hXneg,
        toSigned_eq_neg_one w denomVal hw hd hY⟩

/-- Claim C4: for every SDiv, SRem, UDiv or URem builtin with operands of
width w: a literal zero divisor yields no fold and a division_by_zero
diagnostic exactly when diagnostics are enabled (for any numerator
operand); with both operands literal and the divisor nonzero, if the
mathematical signed quotient does not fit in width w there is no fold and
a division_overflow diagnostic exactly when diagnostics are enabled;
otherwise the instruction is replaced by the literal quotient/remainder
pattern (and the unsigned divisions never reach the overflow case, since
divOverflows is False for them). -/
theorem claim_C4 (ID : BuiltinValueKind)
    (hID : ID = .SDiv ∨ ID = .SRem ∨ ID = .UDiv ∨ ID = .URem)
    (w numVal denomVal : Nat) (hw : 1 ≤ w) (hn : numVal < 2 ^ w)
    (hd : denomVal < 2 ^ w) (rie : Option Bool) :
    (∀ a0 : MVal, constantFoldAndCheckDivision ID a0 (.ilit w 0) rie
        = (none, (if rie.isSome then some true else rie),
           (if rie.isSome then [.division_by_zero] else []))) ∧
    (denomVal ≠ 0 → divOverflows ID w numVal denomVal →
        constantFoldAndCheckDivision ID (.ilit w numVal) (.ilit w denomVal) rie
        = (none, (if rie.isSome then some true else rie),
           (if rie.isSome then [.division_overflow] else []))) ∧
    (denomVal ≠ 0 → ¬ divOverflows ID w numVal denomVal →
        constantFoldAndCheckDivision ID (.ilit w numVal) (.ilit w denomVal) rie
        = (some (w, toPattern w (divMathResult ID w numVal denomVal)),
           rie, [])) := by
  rcases hID with h | h | h | h <;> subst h
  · refine ⟨fun a0 => by cases rie <;> rfl, ?_, ?_⟩
    · intro h0 hov
      have hpair := (sdivOverflow_iff w numVal denomVal hw hn hd h0).2 hov.2
      have hflag : (constantFoldDiv w numVal denomVal .SDiv).2 = true := by
        simp [constantFoldDiv, APInt.sdiv_ov, hpair.1, hpair.2]
      simp only [constantFoldAndCheckDivision]
      rw [if_neg h0, if_pos hflag]
      cases rie <;> rfl
    · intro h0 hnov
      have hfit : fitsSigned w
          (Int.tdiv (toSigned w numVal) (toSigned w denomVal)) :=
        not_not.1 fun hnf => hnov ⟨Or.inl rfl, hnf⟩
      have hnopair : ¬ (numVal = 2 ^ (w - 1) ∧ denomVal = 2 ^ w - 1) :=
        fun hpair => (sdivOverflow_iff w numVal denomVal hw hn hd h0).1 hpair hfit
      have hflag : (constantFoldDiv w numVal denomVal .SDiv).2 = false := by
        rw [Bool.eq_false_iff]
        intro hT
        simp only [constantFoldDiv, APInt.sdiv_ov, Bool.and_eq_true,
          decide_eq_true_eq] at hT
        exact hnopair hT
      simp only [constantFoldAndCheckDivision]
      rw [if_neg h0, if_neg (by simp [hflag])]
      rfl
  · refine ⟨fun a0 => by cases rie <;> rfl, ?_, ?_⟩
    · intro h0 hov
      have hpair := (sdivOverflow_iff w numVal denomVal hw hn hd h0).2 hov.2
      have hflag : (constantFoldDiv w numVal denomVal .SRem).2 = true := by
        simp [constantFoldDiv, APInt.sdiv_ov, hpair.1, hpair.2]
      simp only [constantFoldAndCheckDivision]
      rw [if_neg h0, if_pos hflag]
      cases rie <;> rfl
    · intro h0 hnov
      have hfit : fitsSigned w
          (Int.tdiv (toSigned w numVal) (toSigned w denomVal)) :=
        not_not.1 fun hnf => hnov ⟨Or.inr rfl, hnf⟩
      have hnopair : ¬ (numVal = 2 ^ (w - 1) ∧ denomVal = 2 ^ w - 1) :=
        fun hpair => (sdivOverflow_iff w numVal denomVal hw hn hd h0).1 hpair hfit
      have hflag : (constantFoldDiv w numVal denomVal .SRem).2 = false := by
        rw [Bool.eq_false_iff]
        intro hT
        simp only [constantFoldDiv, APInt.sdiv_ov, Bool.and_eq_true,
          decide_eq_true_eq] at hT
        exact hnopair hT
      simp only [constantFoldAndCheckDivision]
      rw [if_neg h0, if_neg (by simp [hflag])]
      rfl
  · refine ⟨fun a0 => by cases rie <;> rfl, ?_, ?_⟩
    · intro h0 hov
      rcases hov.1 with h | h <;> exact absurd h (by decide)
    · intro h0 hnov
      simp only [constantFoldAndCheckDivision]
      rw [if_neg h0, if_neg (by simp [constantFoldDiv])]
      simp only [divMathResult]
      rw [toPattern_natCast w _ (lt_of_le_of_lt (Nat.div_le_self _ _) hn)]
      rfl
  · refine ⟨fun a0 => by cases rie <;> rfl, ?_, ?_⟩
    · intro h0 hov
      rcases hov.1 with h | h <;> exact absurd h (by decide)
    · intro h0 hnov
      simp only [constantFoldAndCheckDivision]
      rw [if_neg h0, if_neg (by simp [constantFoldDiv])]
      simp only [divMathResult]
      rw [toPattern_natCast w _ (lt_of_le_of_lt (Nat.mod_le _ _) hn)]
      rfl

/-- Witness for claim C4: the 8-bit SDiv of the patterns 128 (minimum
signed value -128) and 255 (-1) with diagnostics enabled refuses the fold
with a division_overflow diagnostic. -/
theorem claim_C4_witness :
    constantFoldAndCheckDivision .SDiv (.ilit 8 128) (.ilit 8 255) (some false)
      = (none, some true, [.division_overflow]) :=
  (claim_C4 .SDiv (Or.inl rfl) 8 128 255 (by decide) (by decide) (by decide)
      (some false)).2.1 (by decide) (by decide)

theorem trunc_zext_ne (d v : Nat) : (v ≠ v % 2 ^ d) ↔ 2 ^ d ≤ v := by
  have h1 : v % 2 ^ d < 2 ^ d := Nat.mod_lt v (two_pow_pos d)
  constructor
  · intro h
    by_contra hc
    push_neg at hc
    exact h (Nat.mod_eq_of_lt hc).symm
  · intro h hc
    rw [← hc] at h1
    exact absurd h1 (not_lt.2 h)

theorem mod_of_high (s d v : Nat) (hds : d ≤ s) (h1 : 2 ^ s - 2 ^ d ≤ v)
    (h2 : v < 2 ^ s) : v % 2 ^ d = v - (2 ^ s - 2 ^ d) := by
  have hD : 2 ^ s = 2 ^ d * 2 ^ (s - d) := by
    rw [← pow_add]
    congr 1
    omega
  have e1 : 2 ^ d * ((2 ^ (s - d) - 1) + 1) = 2 ^ d * (2 ^ (s - d) - 1) + 2 ^ d :=
    Nat.mul_succ _ _
  have e2 : (2 ^ (s - d) - 1) + 1 = 2 ^ (s - d) := by
    have := two_pow_pos (s - d)
    omega
  rw [e2] at e1
  have hk : 2 ^ s - 2 ^ d = 2 ^ d * (2 ^ (s - d) - 1) := by omega
  have hsplit : v = 2 ^ d * (2 ^ (s - d) - 1) + (v - (2 ^ s - 2 ^ d)) := by omega
  conv_lhs => rw [hsplit]
  rw [Nat.mul_add_mod]
  exact Nat.mod_eq_of_lt (by omega)

/-- The SToSCheckedTrunc round trip (truncate to d bits, sign-extend back,
compare) succeeds exactly when the signed reading of the input fits in the
signed range of the destination width. -/
theorem stoS_roundTrip_iff (s d v : Nat) (hd1 : 1 ≤ d) (hds : d < s)
    (hv : v < 2 ^ s) :
    (v = APInt.sext d s (v % 2 ^ d)) ↔ fitsSigned d (toSigned s v) := by
  have hA1 := two_pow_pos (d - 1)
  have hpd := pow_split d hd1
  have hps := pow_split s (by omega)
  have hdc : 2 ^ d ≤ 2 ^ (s - 1) := Nat.pow_le_pow_right (by norm_num) (by omega)
  have hbd1 : ((2 ^ (d - 1) : Nat) : Int) = (2 : Int) ^ (d - 1) := by
    push_cast
    rfl
  have hbs : ((2 ^ s : Nat) : Int) = (2 : Int) ^ s := by
    push_cast
    rfl
  have hr_lt : v % 2 ^ d < 2 ^ d := Nat.mod_lt v (two_pow_pos d)
  unfold APInt.sext fitsSigned toSigned
  constructor
  · intro h
    by_cases hra : v % 2 ^ d < 2 ^ (d - 1)
    · rw [if_pos hra] at h
      have hvA : v < 2 ^ (d - 1) := by omega
      rw [if_pos (by omega : v < 2 ^ (s - 1))]
      omega
    · rw [if_neg hra] at h
      rw [if_neg (by omega : ¬ v < 2 ^ (s - 1))]
      omega
  · intro hfit
    by_cases hvc : v < 2 ^ (s - 1)
    · rw [if_pos hvc] at hfit
      have hvA : v < 2 ^ (d - 1) := by omega
      rw [Nat.mod_eq_of_lt (by omega : v < 2 ^ d)]
      rw [if_pos hvA]
    · rw [if_neg hvc] at hfit
      have hmod := mod_of_high s d v (by omega) (by omega) hv
      rw [hmod]
      rw [if_neg (by omega)]
      omega

/-- Claim C1, counterexample: the claim computes the inverse extension from
the SOURCE signedness.  For SToUCheckedTrunc from 8 to 4 bits at input 15
the code zero-extends (no overflow) while the claim's sign-extension rule
reports overflow; for UToSCheckedTrunc from 8 to 4 bits at input 8 the
code truncates to d-1 bits and zero-extends (overflow) while the claim's
rule reports none. -/
theorem claim_C1_counterexample :
    (convCompute .SToUCheckedTrunc 8 4 15).2 = false ∧
    specConvOverflow .SToUCheckedTrunc 8 4 15 = true ∧
    (convCompute .UToSCheckedTrunc 8 4 8).2 = true ∧
    specConvOverflow .UToSCheckedTrunc 8 4 8 = false := by
  decide

/-- Claim C1 as amended: for the four checked truncations of a literal of
width s to a destination width d with 1 <= d < s, the overflow flag holds
iff the input value, read with the SOURCE signedness, is not representable
in d bits with the DESTINATION signedness.  (Mechanically: the code
truncates to d bits and compares the input against the re-extension chosen
by the destination signedness - sign extension only for SToSCheckedTrunc,
zero extension for UToUCheckedTrunc and SToUCheckedTrunc - while
UToSCheckedTrunc truncates to d-1 bits and zero-extends back.) -/
theorem claim_C1 (ID : BuiltinValueKind)
    (hID : ID = .SToSCheckedTrunc ∨ ID = .UToUCheckedTrunc ∨
           ID = .SToUCheckedTrunc ∨ ID = .UToSCheckedTrunc)
    (s d v : Nat) (hd1 : 1 ≤ d) (hds : d < s) (hv : v < 2 ^ s) :
    ((convCompute ID s d v).2 = true ↔ ¬ checkedTruncFits ID s d v) := by
  have hpd := pow_split d hd1
  have hps := pow_split s (by omega)
  have hdc : 2 ^ d ≤ 2 ^ (s - 1) := Nat.pow_le_pow_right (by norm_num) (by omega)
  have hbd : ((2 ^ d : Nat) : Int) = (2 : Int) ^ d := by
    push_cast
    rfl
  have hbd1 : ((2 ^ (d - 1) : Nat) : Int) = (2 : Int) ^ (d - 1) := by
    push_cast
    rfl
  have hbs : ((2 ^ s : Nat) : Int) = (2 : Int) ^ s := by
    push_cast
    rfl
  rcases hID with h | h | h | h <;> subst h
  · have h1 : (convCompute .SToSCheckedTrunc s d v).2
        = decide (v ≠ APInt.sext d s (v % 2 ^ d)) := rfl
    have h2 : checkedTruncFits .SToSCheckedTrunc s d v ↔
        fitsSigned d (toSigned s v) := by
      simp [checkedTruncFits, srcRead]
    rw [h1, h2, decide_eq_true_eq]
    exact not_congr (stoS_roundTrip_iff s d v hd1 hds hv)
  · have h1 : (convCompute .UToUCheckedTrunc s d v).2
        = decide (v ≠ v % 2 ^ d) := rfl
    have h2 : checkedTruncFits .UToUCheckedTrunc s d v ↔
        (0 ≤ (v : Int) ∧ (v : Int) < (2 : Int) ^ d) := by
      simp [checkedTruncFits, srcRead]
    rw [h1, h2, decide_eq_true_eq, trunc_zext_ne]
    omega
  · have h1 : (convCompute .SToUCheckedTrunc s d v).2
        = decide (v ≠ v % 2 ^ d) := rfl
    have h2 : checkedTruncFits .SToUCheckedTrunc s d v ↔
        (0 ≤ toSigned s v ∧ toSigned s v < (2 : Int) ^ d) := by
      simp [checkedTruncFits, srcRead]
    rw [h1, h2, decide_eq_true_eq, trunc_zext_ne]
    unfold toSigned
    split <;> omega
  · have h1 : (convCompute .UToSCheckedTrunc s d v).2
        = decide (v ≠ v % 2 ^ (d - 1)) := rfl
    have h2 : checkedTruncFits .UToSCheckedTrunc s d v ↔
        fitsSigned d ((v : Int)) := by
      simp [checkedTruncFits, srcRead]
    rw [h1, h2, decide_eq_true_eq, trunc_zext_ne]
    unfold fitsSigned
    omega

/-- Witness for claim C1: UToUCheckedTrunc from 8 to 4 bits at input 255. -/
theorem claim_C1_witness :
    ((convCompute .UToUCheckedTrunc 8 4 255).2 = true ↔
      ¬ checkedTruncFits .UToUCheckedTrunc 8 4 255) :=
  claim_C1 .UToUCheckedTrunc (Or.inr (Or.inl rfl)) 8 4 255
    (by decide) (by decide) (by decide)

theorem pow_sub_pow_eq (s d : Nat) (hds : s ≤ d) :
    2 ^ d - 2 ^ s = 2 ^ s * (2 ^ (d - s) - 1) := by
  have hD : 2 ^ d = 2 ^ s * 2 ^ (d - s) := by
    rw [← pow_add]
    congr 1
    omega
  have e1 : 2 ^ s * ((2 ^ (d - s) - 1) + 1) = 2 ^ s * (2 ^ (d - s) - 1) + 2 ^ s :=
    Nat.mul_succ _ _
  have e2 : (2 ^ (d - s) - 1) + 1 = 2 ^ (d - s) := by
    have := two_pow_pos (d - s)
    omega
  rw [e2] at e1
  omega

theorem testBit_of_half_interval (s v : Nat) (hs : 1 ≤ s)
    (h1 : 2 ^ (s - 1) ≤ v) (h2 : v < 2 ^ s) : v.testBit (s - 1) = true := by
  have hps := pow_split s hs
  have hsplit : v = 2 ^ (s - 1) * 1 + (v - 2 ^ (s - 1)) := by omega
  rw [hsplit, Nat.testBit_mul_pow_two_add 1 (show v - 2 ^ (s - 1) < 2 ^ (s - 1) by omega)]
  simp

/-- Claim C6: an integer cast builtin applied to a literal of source width
s and destination width d returns the argument unchanged when s = d,
regardless of the cast kind; otherwise Trunc keeps exactly the low d bits,
ZExt keeps the value with all added high bits zero, and SExt produces a
d-bit value whose low s bits are the argument and whose bits from s up to
d replicate the sign bit s-1. -/
theorem claim_C6 (s d v : Nat) (hs : 1 ≤ s) (hv : v < 2 ^ s) :
    (∀ ID : BuiltinValueKind, s = d → constantFoldCast s d v ID = v) ∧
    (d < s → ∀ i,
      (constantFoldCast s d v .Trunc).testBit i
          = (decide (i < d) && v.testBit i) ∧
      (constantFoldCast s d v .TruncOrBitCast).testBit i
          = (decide (i < d) && v.testBit i)) ∧
    (s < d →
      constantFoldCast s d v .ZExt = v ∧
      constantFoldCast s d v .ZExtOrBitCast = v ∧
      ∀ i, s ≤ i → v.testBit i = false) ∧
    (s < d →
      constantFoldCast s d v .SExt < 2 ^ d ∧
      constantFoldCast s d v .SExtOrBitCast = constantFoldCast s d v .SExt ∧
      ∀ i, i < d → (constantFoldCast s d v .SExt).testBit i
          = if i < s then v.testBit i else v.testBit (s - 1)) := by
  have hps := pow_split s hs
  refine ⟨?_, ?_, ?_, ?_⟩
  · intro ID hsd
    unfold constantFoldCast
    rw [if_pos hsd]
  · intro hds i
    have hT : constantFoldCast s d v .Trunc = v % 2 ^ d := by
      unfold constantFoldCast
      rw [if_neg (by omega)]
      rfl
    have hT2 : constantFoldCast s d v .TruncOrBitCast = v % 2 ^ d := by
      unfold constantFoldCast
      rw [if_neg (by omega)]
      rfl
    rw [hT, hT2]
    exact ⟨Nat.testBit_mod_two_pow v d i, Nat.testBit_mod_two_pow v d i⟩
  · intro hds
    refine ⟨?_, ?_, ?_⟩
    · unfold constantFoldCast
      rw [if_neg (by omega)]
      rfl
    · unfold constantFoldCast
      rw [if_neg (by omega)]
      rfl
    · intro i hi
      exact Nat.testBit_lt_two_pow
        (lt_of_lt_of_le hv (Nat.pow_le_pow_right (by norm_num) hi))
  · intro hds
    have hpow : 2 ^ s ≤ 2 ^ d := Nat.pow_le_pow_right (by norm_num) (by omega)
    have hcast : constantFoldCast s d v .SExt = APInt.sext s d v := by
      unfold constantFoldCast
      rw [if_neg (by omega)]
    refine ⟨?_, ?_, ?_⟩
    · rw [hcast]
      unfold APInt.sext
      split <;> omega
    · rfl
    · intro i hi
      rw [hcast]
      unfold APInt.sext
      by_cases hsign : v < 2 ^ (s - 1)
      · rw [if_pos hsign]
        split
        · rfl
        · rw [Nat.testBit_lt_two_pow
            (lt_of_lt_of_le hv (Nat.pow_le_pow_right (by norm_num) (by omega)))]
          rw [Nat.testBit_lt_two_pow hsign]
      · rw [if_neg hsign]
        have hrw : v + (2 ^ d - 2 ^ s) = 2 ^ s * (2 ^ (d - s) - 1) + v := by
          rw [pow_sub_pow_eq s d (by omega)]
          omega
        rw [hrw, Nat.testBit_mul_pow_two_add _ hv i]
        split
        · rfl
        · rw [Nat.testBit_two_pow_sub_one,
            testBit_of_half_interval s v hs (by omega) hv]
          simp only [decide_eq_true_eq]
          omega

/-- Witness for claim C6: sign extension of the 4-bit pattern 12 (-4) to 8
bits stays below 2 ^ 8 and copies the sign bit into bit 7. -/
theorem claim_C6_witness :
    constantFoldCast 4 8 12 .SExt < 2 ^ 8 ∧
    (constantFoldCast 4 8 12 .SExt).testBit 7
      = (if (7 : Nat) < 4 then Nat.testBit 12 7 else Nat.testBit 12 3) := by
  have h := claim_C6 4 8 12 (by decide) (by decide)
  exact ⟨(h.2.2.2 (by decide)).1, (h.2.2.2 (by decide)).2.2 7 (by decide)⟩

/-- Claim C10: the non-checked integer Add, Sub and Mul builtins are never
constant-folded: for every pair of operands (literal or not) and every
state of the diagnostics flag, constantFoldBinary returns no replacement,
leaves the flag unchanged and emits nothing. -/
theorem claim_C10 (a b : MVal) (rie : Option Bool) :
    constantFoldBinary .Add a b rie = (none, rie, []) ∧
    constantFoldBinary .Sub a b rie = (none, rie, []) ∧
    constantFoldBinary .Mul a b rie = (none, rie, []) :=
  ⟨rfl, rfl, rfl⟩

/-- Claim C3 (refuted; the code contradicts the driver's own comment that a
None ResultsInError means no diagnostics are emitted): folding an 8-bit
LShr of the literal 1 by the literal 8 with the results-in-error flag
ABSENT still emits the shifting_all_significant_bits diagnostic and turns
the flag into present-true. -/
theorem claim_C3 :
    constantFoldBinary .LShr (.ilit 8 1) (.ilit 8 8) none
      = (none, some true, [.shifting_all_significant_bits]) := by
  rfl

/-- Claim C2, counterexample to "no replacement value is produced, and the
instruction is retained": folding the 32-bit checked signed add of the
literals 2147483647 and 1 with the report flag literal 1, diagnostics
enabled, in a non-specialized function with recoverable operand types,
DOES produce a replacement: the tuple (2147483648, 1). -/
theorem claim_C2_counterexample :
    (constantFoldBinaryWithOverflowBuiltin .SAddOver
        [.ilit 32 2147483647, .ilit 32 1, .ilit 1 1]
        (some false) false true).1
      = some (2147483648, 1) := by
  rfl

/-- Claim C2 as amended: folding the 32-bit checked signed add of the
literals 2147483647 and 1 with the report-overflow operand the literal 1
and diagnostics enabled (in a non-specialized function with recoverable
operand types) emits exactly one arithmetic_operation_overflow diagnostic,
sets the results-in-error flag, and replaces the instruction by the tuple
(2147483648, 1), i.e. the wrapped sum with the overflow bit set. -/
theorem claim_C2 :
    constantFoldBinaryWithOverflowBuiltin .SAddOver
        [.ilit 32 2147483647, .ilit 32 1, .ilit 1 1]
        (some false) false true
      = (some (2147483648, 1), some true, [.arithmetic_operation_overflow]) := by
  rfl

/-- Claim C8, counterexample: when the instruction's location does not
resolve to a call expression at all, maybeExplicitFPCons holds, but the
claim's condition (a non-implicit constructor call, or a constructed type
equal to Double) does not. -/
theorem claim_C8_counterexample :
    maybeExplicitFPCons none = true ∧ ¬ specMaybeExplicit none := by
  refine ⟨rfl, ?_⟩
  rintro (⟨c, h, -⟩ | ⟨c, h, -⟩) <;> cases h

/-- Claim C8 as amended: maybeExplicitFPCons holds iff the location fails
to resolve to a call expression (the conservative default), or the callee
is not a constructor reference (same default), or the call is not marked
implicit, or the constructed type is the platform's canonical Double. -/
theorem claim_C8 (loc : Option CallInfo) :
    maybeExplicitFPCons loc = true ↔
      (loc = none ∨ ∃ c, loc = some c ∧
        (c.calleeIsCtorRef = false ∨ c.isImplicit = false ∨
         c.typeIsCanonicalDouble = true)) := by
  cases loc with
  | none => simp [maybeExplicitFPCons]
  | some c =>
    simp only [maybeExplicitFPCons, Option.some.injEq, reduceCtorEq, false_or]
    constructor
    · intro h
      refine ⟨c, rfl, ?_⟩
      by_cases h1 : c.calleeIsCtorRef
      · by_cases h2 : c.isImplicit
        · simp [h1, h2] at h
          exact Or.inr (Or.inr h)
        · exact Or.inr (Or.inl (by simpa using h2))
      · exact Or.inl (by simpa using h1)
    · rintro ⟨d, hd, h⟩
      cases hd
      rcases h with h | h | h <;> simp [h]

/-- Claim C7: foldFPTrunc, given a float-literal operand, refuses to fold
exactly when the conversion status includes invalid-op, div-by-zero or
underflow, or the converted result is denormal; with any other status
combination (OK, inexact, overflow) and a non-denormal result it folds,
independently of the warning path, the diagnostics flag and the
explicit-initializer test.  A non-literal operand never folds. -/
theorem claim_C7 (ev : FPTruncEval) (loc : Option CallInfo) (rie : Option Bool) :
    ((foldFPTrunc (some ev) loc rie).1 = false ↔
      (ev.status.invalidOp = true ∨ ev.status.divByZero = true ∨
       ev.status.underflow = true ∨ ev.resultIsDenormal = true)) ∧
    foldFPTrunc none loc rie = (false, rie, []) := by
  refine ⟨?_, rfl⟩
  show (if ev.status.invalidOp || ev.status.divByZero || ev.status.underflow ||
          ev.resultIsDenormal then _ else _ : Bool × Option Bool × List Diag).1
         = false ↔ _
  split
  next h =>
    simp only [Bool.or_eq_true] at h
    simp only [true_iff]
    tauto
  next h =>
    simp only [Bool.or_eq_true] at h
    push_neg at h
    simp only [Bool.not_eq_true] at h
    obtain ⟨⟨⟨h1, h2⟩, h3⟩, h4⟩ := h
    simp [h1, h2, h3, h4]

/-- Claim C9: the pattern folder replaces an unsigned comparison of a
non-literal x against the literal zero bound by the 1-bit literal:
x below zero (or zero above x) becomes 0, x at least zero (or zero at
most x) becomes 1, and no diagnostic is emitted. -/
theorem claim_C9 (x : MVal) (hx : isIntLit x = false) (w : Nat) :
    constantFoldCompare .ICMP_ULT x (.ilit w 0) = (some (1, 0), []) ∧
    constantFoldCompare .ICMP_UGT (.ilit w 0) x = (some (1, 0), []) ∧
    constantFoldCompare .ICMP_UGE x (.ilit w 0) = (some (1, 1), []) ∧
    constantFoldCompare .ICMP_ULE (.ilit w 0) x = (some (1, 1), []) := by
  cases x with
  | ilit w0 v0 => simp [isIntLit] at hx
  | builtin k args => exact ⟨rfl, rfl, rfl, rfl⟩
  | tupleExtract agg f => exact ⟨rfl, rfl, rfl, rfl⟩
  | unknown i => exact ⟨rfl, rfl, rfl, rfl⟩

/-- Witness for claim C9 at the opaque value 0 and width 32. -/
theorem claim_C9_witness :
    constantFoldCompare .ICMP_ULT (.unknown 0) (.ilit 32 0) = (some (1, 0), []) :=
  (claim_C9 (.unknown 0) rfl 32).1

end ConstantFolding
